import Mathlib

/-!
Verification of the arxiv2markdown job-scheduling and resilience layer.

The definitions below are a shallow embedding of the Python sources:
* `src/arxiv_parser/main.py` (`get_file_type`, exit code of `main`),
* `src/arxiv_parser/parallel_processor.py` (`worker_process`,
  `ProcessingStats` and its derived metrics, `ParallelProcessor.process_files`),
* `src/arxiv_parser/utils/file_system.py` (`safe_move_to_failed`,
  `write_failure_log`),
* `src/batch_processor.py` (`get_priority_from_filename`, `initialize_state`,
  `main`, the `__main__` block).

Machine floats are modelled by `ℚ`; fallible operations (blocking queue
reads, `max`/`min`/`np.median` on possibly-empty data, division) return
`Option` so that "no fault" is a provable statement.
-/

/-! ### Python `pathlib` string helpers -/

/-- Index of the last `'.'` in a character list (`str.rfind('.')`),
`none` when absent. -/
def lastDotIdx : List Char → Option Nat
  | [] => none
  | c :: cs =>
    match lastDotIdx cs with
    | some i => some (i + 1)
    | none => if c = '.' then some 0 else none

/-- `PurePath.suffix` of CPython on the final component `name`:
`name[i:]` for `i = name.rfind('.')` when `0 < i < len(name) - 1`,
else the empty string. -/
def pySuffixChars (cs : List Char) : List Char :=
  match lastDotIdx cs with
  | some i => if 0 < i ∧ i < cs.length - 1 then cs.drop i else []
  | none => []

/-- `PurePath.stem` of CPython: `name[:i]` under the same condition,
else the whole name. -/
def pyStemChars (cs : List Char) : List Char :=
  match lastDotIdx cs with
  | some i => if 0 < i ∧ i < cs.length - 1 then cs.take i else cs
  | none => cs

def pySuffix (s : String) : String := String.mk (pySuffixChars s.data)

def pyStem (s : String) : String := String.mk (pyStemChars s.data)

/-- Python `str.endswith`. -/
def endsWithChars (cs suf : List Char) : Bool :=
  decide (suf.length ≤ cs.length) && decide (cs.drop (cs.length - suf.length) = suf)

/-! ### `config.py` extension sets and `main.get_file_type` -/

def SUPPORTED_PDF_EXTENSIONS : List String := [".pdf"]

def SUPPORTED_TEX_EXTENSIONS : List String := [".gz", ".tar.gz"]

inductive FileType where
  | pdf
  | tex
  | unknown
deriving DecidableEq, Repr

/-- `main.get_file_type`: dispatch on the lower-cased `Path.suffix`, with the
extra `name.endswith('.tar.gz')` check for the tex branch. -/
def get_file_type (name : String) : FileType :=
  let suffix := String.mk ((pySuffixChars name.data).map Char.toLower)
  if suffix ∈ SUPPORTED_PDF_EXTENSIONS then FileType.pdf
  else if suffix ∈ SUPPORTED_TEX_EXTENSIONS || endsWithChars name.data ".tar.gz".data then
    FileType.tex
  else FileType.unknown


/-! ### `parallel_processor.worker_process`, one loop iteration -/

inductive RStatus where
  | success
  | failure
  | skipped
deriving DecidableEq, Repr

/-- One outcome record put on `result_queue` by a worker
(the `result` dict of `worker_process`). -/
structure WorkResult where
  file_name : String
  status : RStatus
  time : ℚ
deriving DecidableEq, Repr

/-- Environment oracle for one item: whether an exception escapes the
classify/convert block, what `process_single_file_with_failover` returns,
and the wall-clock span `time.time() - start_time` measured at the point
the code records it. -/
structure ItemRun where
  raises : Bool
  convSuccess : Bool
  elapsed : ℚ
deriving DecidableEq, Repr

/-- A work item together with its environment behaviour. -/
structure Job where
  name : String
  run : ItemRun
deriving DecidableEq, Repr

/-- Body of the `while True` loop of `worker_process` for one dequeued item:
initialize `result` as a failure with time 0, classify, dispatch, and turn any
exception from the inner `try` block into a failure with measured time. -/
def worker_process_item (j : Job) : WorkResult :=
  if j.run.raises then ⟨j.name, RStatus.failure, j.run.elapsed⟩
  else
    match get_file_type j.name with
    | FileType.pdf => ⟨j.name, RStatus.skipped, 0⟩
    | FileType.tex =>
      if j.run.convSuccess then ⟨j.name, RStatus.success, j.run.elapsed⟩
      else ⟨j.name, RStatus.failure, j.run.elapsed⟩
    | FileType.unknown => ⟨j.name, RStatus.skipped, 0⟩

/-- The stream of outcome records produced by the worker loop over a task
list: exactly one record per item, the loop then continues with the rest. -/
def worker_outputs (jobs : List Job) : List WorkResult :=
  jobs.map worker_process_item

/-! ### `ProcessingStats` and the result-collection loop -/

structure ProcessingStats where
  total_files : Nat := 0
  processed_files : Nat := 0
  successful_files : Nat := 0
  failed_files : Nat := 0
  skipped_files : Nat := 0
  start_time : ℚ := 0
  end_time : ℚ := 0
  processing_times : List ℚ := []
deriving DecidableEq, Repr

/-- One iteration of the result-collection loop of
`ParallelProcessor.process_files` (lines 205-219): increment
`processed_files`, then dispatch on the record's status. -/
def collectStep (s : ProcessingStats) (r : WorkResult) : ProcessingStats :=
  let s := { s with processed_files := s.processed_files + 1 }
  match r.status with
  | RStatus.success =>
    { s with successful_files := s.successful_files + 1,
             processing_times := s.processing_times ++ [r.time] }
  | RStatus.failure =>
    { s with failed_files := s.failed_files + 1,
             processing_times :=
               if 0 < r.time then s.processing_times ++ [r.time]
               else s.processing_times }
  | RStatus.skipped =>
    { s with skipped_files := s.skipped_files + 1 }

/-- The collection loop `for _ in range(len(file_list)): result_queue.get()`.
Each `get()` has no timeout: if the stream of records that will ever be
emitted is exhausted before `n` reads, the loop blocks forever, modelled as
`none`. -/
def collectLoop : Nat → List WorkResult → ProcessingStats → Option ProcessingStats
  | 0, _, s => some s
  | _ + 1, [], _ => none
  | n + 1, r :: rs, s => collectLoop n rs (collectStep s r)

/-- Collection phase of `process_files` for `n` submitted items, given the
records that are ever emitted. -/
def collectPhase (n : Nat) (emitted : List WorkResult) : Option ProcessingStats :=
  collectLoop n emitted { total_files := n }

/-- `ParallelProcessor.process_files` on the normal path (no worker dies):
every worker-produced record reaches the queue and the loop collects
`len(file_list)` of them. -/
def process_files (jobs : List Job) : Option ProcessingStats :=
  collectPhase jobs.length (worker_outputs jobs)

/-- `worker.join(timeout=10)` followed by `worker.terminate()` when still
alive: a worker whose exit time after the sentinel is `t` is forcibly
terminated iff `t > 10`; a worker that never exits (`none`) always is. -/
def forcibly_terminated (exitTime : Option ℚ) : Bool :=
  match exitTime with
  | some t => decide (10 < t)
  | none => true

/-! ### Derived metrics of `ProcessingStats` -/

/-- Python division, which raises `ZeroDivisionError` on a zero denominator. -/
def pyDiv (a b : ℚ) : Option ℚ :=
  if b = 0 then none else some (a / b)

/-- Python `max` of a list, which raises on an empty list. -/
def pyMax : List ℚ → Option ℚ
  | [] => none
  | x :: xs => some (xs.foldl max x)

/-- Python `min` of a list, which raises on an empty list. -/
def pyMin : List ℚ → Option ℚ
  | [] => none
  | x :: xs => some (xs.foldl min x)

/-- Ascending insertion of one value into a sorted list of rationals. -/
def insertQ (x : ℚ) : List ℚ → List ℚ
  | [] => [x]
  | y :: ys => if x ≤ y then x :: y :: ys else y :: insertQ x ys

/-- Ascending sort, used to model `np.median` / `np.percentile`. -/
def sortQ : List ℚ → List ℚ
  | [] => []
  | x :: xs => insertQ x (sortQ xs)

/-- `np.median`: middle element of the sorted data for odd length, mean of
the two middle elements for even length; undefined on empty data. -/
def npMedian (l : List ℚ) : Option ℚ :=
  match sortQ l with
  | [] => none
  | xs =>
    some (if xs.length % 2 = 1 then xs.getD (xs.length / 2) 0
          else (xs.getD (xs.length / 2 - 1) 0 + xs.getD (xs.length / 2) 0) / 2)

/-- `np.percentile` with the default linear interpolation; undefined on
empty data. -/
def npPercentile (p : ℚ) (l : List ℚ) : Option ℚ :=
  match sortQ l with
  | [] => none
  | xs =>
    let r : ℚ := p * ((xs.length : ℚ) - 1) / 100
    let i : Nat := (Int.floor r).toNat
    let lo := xs.getD i 0
    let hi := xs.getD (min (i + 1) (xs.length - 1)) 0
    some (lo + (r - (i : ℚ)) * (hi - lo))

/-- `ProcessingStats.total_time`: `end_time - start_time`, or distance to the
current clock when the run is not finalized. -/
def total_time (s : ProcessingStats) (now : ℚ) : ℚ :=
  if s.end_time = 0 then now - s.start_time else s.end_time - s.start_time

/-- `ProcessingStats.average_time`: `0.0` for an empty duration list,
otherwise the mean. -/
def average_time (s : ProcessingStats) : Option ℚ :=
  if s.processing_times = [] then some 0
  else pyDiv s.processing_times.sum (s.processing_times.length : ℚ)

/-- `ProcessingStats.median_time`: `0.0` for an empty duration list,
otherwise `np.median`. -/
def median_time (s : ProcessingStats) : Option ℚ :=
  if s.processing_times = [] then some 0 else npMedian s.processing_times

/-- `ProcessingStats.max_time`: `max(...) if self.processing_times else 0.0`. -/
def max_time (s : ProcessingStats) : Option ℚ :=
  if s.processing_times = [] then some 0 else pyMax s.processing_times

/-- `ProcessingStats.min_time`: `min(...) if self.processing_times else 0.0`. -/
def min_time (s : ProcessingStats) : Option ℚ :=
  if s.processing_times = [] then some 0 else pyMin s.processing_times

/-- `ProcessingStats.success_rate`: `0` when `successful + failed = 0`, else
`successful / (successful + failed) * 100`. -/
def success_rate (s : ProcessingStats) : Option ℚ :=
  if s.successful_files + s.failed_files = 0 then some 0
  else
    (pyDiv (s.successful_files : ℚ) ((s.successful_files : ℚ) + (s.failed_files : ℚ))).map
      (fun x => x * 100)

/-- `ProcessingStats.middle_80_percent_time_range`: `(0, 0)` for fewer than
two samples, else the 10th and 90th percentiles. -/
def middle_80_percent_time_range (s : ProcessingStats) : Option (ℚ × ℚ) :=
  if s.processing_times.length < 2 then some (0, 0)
  else
    match npPercentile 10 s.processing_times, npPercentile 90 s.processing_times with
    | some a, some b => some (a, b)
    | _, _ => none

/-- The numeric values written by `ProcessingStats.generate_csv_report`, in
row order. -/
def generate_csv_report_values (s : ProcessingStats) (now : ℚ) : Option (List ℚ) := do
  let sr ← success_rate s
  let avg ← average_time s
  let med ← median_time s
  let mx ← max_time s
  let mn ← min_time s
  let pr ← middle_80_percent_time_range s
  pure [total_time s now, (s.total_files : ℚ),
        ((s.successful_files + s.failed_files : Nat) : ℚ),
        (s.successful_files : ℚ), (s.failed_files : ℚ), (s.skipped_files : ℚ),
        sr, avg, med, mx, mn, pr.1, pr.2]

/-- The numeric values logged by `ProcessingStats.print_summary`: the counts
always, the latency metrics only when the duration list is non-empty. -/
def print_summary_values (s : ProcessingStats) (now : ℚ) : Option (List ℚ) :=
  let base := [total_time s now, (s.total_files : ℚ), (s.processed_files : ℚ),
               (s.successful_files : ℚ), (s.failed_files : ℚ), (s.skipped_files : ℚ)]
  if s.processing_times = [] then some base
  else do
    let sr ← success_rate s
    let avg ← average_time s
    let mn ← min_time s
    let med ← median_time s
    let mx ← max_time s
    let pr ← middle_80_percent_time_range s
    pure (base ++ [sr, avg, mn, med, mx, pr.1, pr.2])


/-! ### `file_system.safe_move_to_failed` and `write_failure_log` -/

/-- The disambiguated name `f"{stem}_{timestamp}{suffix}"`. -/
def timestampedName (stem suffix : String) (ts : Nat) : String :=
  stem ++ "_" ++ toString ts ++ suffix

/-- Target path chosen by `safe_move_to_failed`: the original name, or the
timestamped name when a file of that name already exists in the failed
directory.  The existence check happens once; the timestamped name is not
re-checked. -/
def safeMoveTarget (dir : List String) (name : String) (ts : Nat) : String :=
  if name ∈ dir then timestampedName (pyStem name) (pySuffix name) ts else name

/-- Whether the `shutil.move` performed by `safe_move_to_failed` lands on an
already existing file of the quarantine directory (in which case `os.rename`
silently replaces it). -/
def moveOverwrites (dir : List String) (name : String) (ts : Nat) : Bool :=
  decide (safeMoveTarget dir name ts ∈ dir)

/-- One line of `fail.log` written by `write_failure_log`:
`f"[{timestamp}] {filename}: {error_info}"`. -/
def logLine (tsStr name msg : String) : String :=
  "[" ++ tsStr ++ "] " ++ name ++ ": " ++ msg

/-- `safe_move_to_failed`: compute the target, move the file there
(replacing any file already at the target), then append a `fail.log` line
when `error_info` is truthy (`None`/empty is falsy).  Returns the new
directory contents, the new log, and the chosen target name. -/
def safe_move_to_failed (dir log : List String) (name : String) (ts : Nat)
    (tsStr msg : String) : List String × List String × String :=
  let target := safeMoveTarget dir name ts
  let dir2 := if target ∈ dir then dir else target :: dir
  let log2 := if msg = "" then log else log ++ [logLine tsStr name msg]
  (dir2, log2, target)


/-! ### `batch_processor.get_priority_from_filename` -/

/-- Attempt of the regex `src_(\d+)_(\d+)\.tar` at one position, after the
literal `src_` has been consumed: a maximal non-empty digit run, `_`, a
maximal non-empty digit run, then the literal `.tar`.  Because each `\d+` is
followed by a non-digit literal, greedy matching with backtracking is
equivalent to this maximal-munch matcher. -/
def matchNum (rest : List Char) : Option (List Char × List Char) :=
  let d1 := rest.takeWhile (fun c => c.isDigit)
  let r1 := rest.dropWhile (fun c => c.isDigit)
  if d1 = [] then none
  else
    match r1 with
    | c :: r2 =>
      if c = '_' then
        let d2 := r2.takeWhile (fun c => c.isDigit)
        let r3 := r2.dropWhile (fun c => c.isDigit)
        if d2 = [] then none
        else
          match r3 with
          | e1 :: e2 :: e3 :: e4 :: _ =>
            if e1 = '.' ∧ e2 = 't' ∧ e3 = 'a' ∧ e4 = 'r' then some (d1, d2) else none
          | _ => none
      else none
    | [] => none

/-- Attempt of the full pattern at one position: the literal `src_` then
`matchNum`. -/
def matchAt (cs : List Char) : Option (List Char × List Char) :=
  match cs with
  | c1 :: c2 :: c3 :: c4 :: rest =>
    if c1 = 's' ∧ c2 = 'r' ∧ c3 = 'c' ∧ c4 = '_' then matchNum rest else none
  | _ => none

/-- `re.search`: try the pattern at each position from the left. -/
def searchSrc : List Char → Option (List Char × List Char)
  | [] => none
  | c :: cs =>
    match matchAt (c :: cs) with
    | some x => some x
    | none => searchSrc cs

/-- `int` of a decimal digit string. -/
def digitsToNat (ds : List Char) : Nat :=
  ds.foldl (fun n c => n * 10 + (c.toNat - 48)) 0

/-- `get_priority_from_filename`: concatenate the two captured digit groups
and parse them as an integer; `0` when the pattern does not match. -/
def get_priority_from_filename (s : String) : Nat :=
  match searchSrc s.data with
  | some (d1, d2) => digitsToNat (d1 ++ d2)
  | none => 0


/-! ### `batch_processor.initialize_state` and the orchestrator loop -/

inductive BStatus where
  | pending
  | completed
  | failed
deriving DecidableEq, Repr

/-- One entry of `processing_state.json`: `{path, status, priority}`. -/
structure BEntry where
  path : String
  status : BStatus
  priority : Nat
deriving DecidableEq, Repr

/-- The `files` mapping of the state file, as an insertion-ordered
association list (Python dicts preserve insertion order). -/
abbrev BState := List (String × BEntry)

/-- `initialize_state`: for each discovered `(filename, filepath)`, append a
fresh `pending` entry when the filename is not yet in the store. -/
def initialize_state (st : BState) (found : List (String × String)) : BState :=
  found.foldl
    (fun acc f =>
      if (acc.lookup f.1).isSome then acc
      else acc ++ [(f.1, ⟨f.2, BStatus.pending, get_priority_from_filename f.1⟩)])
    st

/-- Stable insertion for descending-priority order: the new element goes in
front of the first element whose priority does not exceed it. -/
def insertTask (x : String × BEntry) : List (String × BEntry) → List (String × BEntry)
  | [] => [x]
  | y :: ys => if y.2.priority ≤ x.2.priority then x :: y :: ys else y :: insertTask x ys

/-- Stable descending sort by priority, modelling
`pending_tasks.sort(key=..., reverse=True)` (Python sorts are stable). -/
def sortTasksDesc : List (String × BEntry) → List (String × BEntry)
  | [] => []
  | x :: xs => insertTask x (sortTasksDesc xs)

/-- The pending backlog returned by `initialize_state`: the `pending`
entries, sorted by descending priority. -/
def pendingTasks (st : BState) : List (String × BEntry) :=
  sortTasksDesc (st.filter (fun e => e.2.status == BStatus.pending))

/-- `state_data["files"][filename]["status"] = v`. -/
def setStatus (st : BState) (name : String) (v : BStatus) : BState :=
  st.map (fun e => if e.1 = name then (e.1, { e.2 with status := v }) else e)

/-- The orchestrator `main` of `batch_processor.py`: scan, return early with
zero archive conversions when the backlog is empty, otherwise process each
backlog entry and commit `completed` or `failed` according to whether the
per-archive pipeline raised.  Returns the final store and the number of
`run_parallel_processing` invocations. -/
def mainRun (st : BState) (found : List (String × String)) (ok : String → Bool) :
    BState × Nat :=
  let st1 := initialize_state st found
  let pt := pendingTasks st1
  if pt.isEmpty then (st1, 0)
  else
    (pt.foldl
      (fun s task =>
        setStatus s task.1 (if ok task.1 then BStatus.completed else BStatus.failed))
      st1,
     pt.length)

/-! ### CLI exit codes -/

/-- Exit code of the batch CLI (`batch_processor.py`): `main` returns `None`
on every path and the `__main__` block (lines 202-235) never passes a status
to `sys.exit`, so the interpreter exits with `0` regardless of the item
outcomes of the run. -/
def batch_cli_exit_code (itemOutcomes : List RStatus) : Nat := 0

/-- Exit code of the single-run driver `arxiv_parser/main.py`: `main`
returns `0 if failed_count == 0 else 1` (line 232) and the `__main__` block
passes it to `sys.exit`. -/
def arxiv_main_exit_code (failed_count : Nat) : Nat :=
  if failed_count = 0 then 0 else 1

/-! ### Lemmas about the collection loop -/

/-- The duration contribution of one outcome record, as performed by the
collection loop: a success always contributes its time, a failure only a
positive time, a skip nothing. -/
def durOf (r : WorkResult) : Option ℚ :=
  match r.status with
  | RStatus.success => some r.time
  | RStatus.failure => if 0 < r.time then some r.time else none
  | RStatus.skipped => none

/-- The per-entry evolution allowed by one orchestrator run: name, path and
priority are untouched; the status is unchanged, or moves from `pending` to
`completed` or `failed`. -/
def entryEvolves (a b : String × BEntry) : Prop :=
  b.1 = a.1 ∧ b.2.path = a.2.path ∧ b.2.priority = a.2.priority ∧
    (b.2.status = a.2.status ∨
      (a.2.status = BStatus.pending ∧
        (b.2.status = BStatus.completed ∨ b.2.status = BStatus.failed)))

theorem collectStep_processed (s : ProcessingStats) (r : WorkResult) :
    (collectStep s r).processed_files = s.processed_files + 1 := by
  rcases r with ⟨nm, st, tm⟩
  cases st <;> simp [collectStep]

theorem collectStep_total (s : ProcessingStats) (r : WorkResult) :
    (collectStep s r).total_files = s.total_files := by
  rcases r with ⟨nm, st, tm⟩
  cases st <;> simp [collectStep]

theorem collectStep_sum (s : ProcessingStats) (r : WorkResult) :
    (collectStep s r).successful_files + (collectStep s r).failed_files +
        (collectStep s r).skipped_files
      = s.successful_files + s.failed_files + s.skipped_files + 1 := by
  rcases r with ⟨nm, st, tm⟩
  cases st <;> simp [collectStep] <;> omega

theorem collectStep_times (s : ProcessingStats) (r : WorkResult) :
    (collectStep s r).processing_times = s.processing_times ++ (durOf r).toList := by
  rcases r with ⟨nm, st, tm⟩
  cases st <;> simp [collectStep, durOf]
  split <;> simp

theorem foldl_collect_processed (rs : List WorkResult) :
    ∀ s : ProcessingStats,
      (rs.foldl collectStep s).processed_files = s.processed_files + rs.length := by
  induction rs with
  | nil => simp
  | cons r rs ih =>
    intro s
    rw [List.foldl_cons, ih, collectStep_processed]
    simp
    omega

theorem foldl_collect_total (rs : List WorkResult) :
    ∀ s : ProcessingStats, (rs.foldl collectStep s).total_files = s.total_files := by
  induction rs with
  | nil => simp
  | cons r rs ih =>
    intro s
    rw [List.foldl_cons, ih, collectStep_total]

theorem foldl_collect_sum (rs : List WorkResult) :
    ∀ s : ProcessingStats,
      (rs.foldl collectStep s).successful_files + (rs.foldl collectStep s).failed_files +
          (rs.foldl collectStep s).skipped_files
        = s.successful_files + s.failed_files + s.skipped_files + rs.length := by
  induction rs with
  | nil => simp
  | cons r rs ih =>
    intro s
    rw [List.foldl_cons, ih, collectStep_sum]
    simp
    omega

theorem foldl_collect_times (rs : List WorkResult) :
    ∀ s : ProcessingStats,
      (rs.foldl collectStep s).processing_times
        = s.processing_times ++ rs.filterMap durOf := by
  induction rs with
  | nil => simp
  | cons r rs ih =>
    intro s
    rw [List.foldl_cons, ih, collectStep_times]
    cases hd : durOf r <;> simp [List.filterMap_cons, hd]

theorem collectLoop_all (rs : List WorkResult) :
    ∀ s : ProcessingStats, collectLoop rs.length rs s = some (rs.foldl collectStep s) := by
  induction rs with
  | nil => intro s; rfl
  | cons r rs ih => intro s; simpa [collectLoop] using ih (collectStep s r)

theorem collectLoop_short (rs : List WorkResult) :
    ∀ (n : Nat) (s : ProcessingStats), rs.length < n → collectLoop n rs s = none := by
  induction rs with
  | nil =>
    intro n s h
    cases n with
    | zero => omega
    | succ k => rfl
  | cons r rs ih =>
    intro n s h
    cases n with
    | zero => omega
    | succ k =>
      have : rs.length < k := by simpa using h
      simpa [collectLoop] using ih k (collectStep s r) this

theorem collectLoop_isSome (n : Nat) :
    ∀ (rs : List WorkResult) (s : ProcessingStats),
      n ≤ rs.length → (collectLoop n rs s).isSome = true := by
  induction n with
  | zero => intro rs s h; simp [collectLoop]
  | succ k ih =>
    intro rs s h
    cases rs with
    | nil => simp at h
    | cons r rest =>
      have : k ≤ rest.length := by simpa using h
      simpa [collectLoop] using ih rest (collectStep s r) this

/-- Helper: `success_rate` is total (the zero-denominator branch is guarded). -/
theorem success_rate_total (s : ProcessingStats) : ∃ v, success_rate s = some v := by
  unfold success_rate pyDiv
  by_cases h : s.successful_files + s.failed_files = 0
  · simp [h]
  · have hq : ((s.successful_files : ℚ) + (s.failed_files : ℚ)) ≠ 0 := by
      rw [← Nat.cast_add]
      exact_mod_cast h
    simp [h, hq]

/-! ### Claim theorems -/

/-- C1: for every finite list of work items, on the normal path (no worker
forcibly terminated, modelled by every worker-emitted record reaching the
queue) the run collects exactly one outcome per item, and the final stats
satisfy `successful + failed + skipped = N` with `processed_files` counting
every collected outcome. -/
theorem pool_accounts_every_item (jobs : List Job) :
    ∃ s, process_files jobs = some s ∧
      s.processed_files = jobs.length ∧
      s.successful_files + s.failed_files + s.skipped_files = jobs.length ∧
      s.total_files = jobs.length := by
  have hlen : (worker_outputs jobs).length = jobs.length := by simp [worker_outputs]
  refine ⟨(worker_outputs jobs).foldl collectStep { total_files := jobs.length }, ?_, ?_, ?_, ?_⟩
  · unfold process_files collectPhase
    rw [← hlen]
    exact collectLoop_all (worker_outputs jobs) _
  · rw [foldl_collect_processed, hlen]
    simp
  · rw [foldl_collect_sum, hlen]
    simp
  · rw [foldl_collect_total]

/-- C2 counterexample: with one submitted item whose worker dies before
emitting an outcome record, the collection loop never completes — the
blocking `result_queue.get()` has no timeout, so collection does not
tolerate fewer outcomes than submitted items. -/
theorem collection_hangs_on_missing_outcome : collectPhase 1 [] = none := rfl

/-- C2 (amended): the collection loop performs one unboundedly-blocking
receive per submitted item — it completes exactly when at least one outcome
per item arrives and blocks forever otherwise; only after collection are
workers joined with a 10-time-unit bound and stragglers forcibly
terminated. -/
theorem collection_requires_every_outcome :
    (∀ (n : Nat) (emitted : List WorkResult),
        emitted.length < n → collectPhase n emitted = none) ∧
    (∀ (n : Nat) (emitted : List WorkResult),
        n ≤ emitted.length → (collectPhase n emitted).isSome = true) ∧
    forcibly_terminated none = true ∧
    (∀ t : ℚ, 10 < t → forcibly_terminated (some t) = true) ∧
    (∀ t : ℚ, t ≤ 10 → forcibly_terminated (some t) = false) := by
  refine ⟨?_, ?_, rfl, ?_, ?_⟩
  · intro n emitted h
    exact collectLoop_short emitted n _ h
  · intro n emitted h
    exact collectLoop_isSome n emitted _ h
  · intro t h
    simp [forcibly_terminated, h]
  · intro t h
    simp [forcibly_terminated]
    linarith

theorem collection_requires_every_outcome_witness :
    collectPhase 2 [⟨"x.gz", RStatus.success, 1⟩] = none ∧
    (collectPhase 0 []).isSome = true ∧
    forcibly_terminated (some 11) = true := by
  refine ⟨collection_requires_every_outcome.1 2 [⟨"x.gz", RStatus.success, 1⟩] ?_,
          collection_requires_every_outcome.2.1 0 [] ?_,
          collection_requires_every_outcome.2.2.2.1 11 ?_⟩
  · simp
  · simp
  · norm_num

/-- C3 counterexample: a run with a failed item still makes the batch CLI
exit with code 0 — `batch_processor.main` returns `None` and its `__main__`
block never passes a status to `sys.exit`. -/
theorem batch_cli_zero_despite_failure : batch_cli_exit_code [RStatus.failure] = 0 := rfl

/-- C3 (amended): the batch CLI (source-directory and worker-count
arguments) always exits 0 regardless of item outcomes; the
exit-0-on-success / nonzero-on-failure policy exists only in the single-run
driver `arxiv_parser/main.py`. -/
theorem cli_exit_code_spec :
    (∀ outcomes : List RStatus, batch_cli_exit_code outcomes = 0) ∧
    (∀ n : Nat, arxiv_main_exit_code n = 0 ↔ n = 0) := by
  constructor
  · intro outcomes
    rfl
  · intro n
    unfold arxiv_main_exit_code
    by_cases h : n = 0 <;> simp [h]

theorem cli_exit_code_witness :
    batch_cli_exit_code [RStatus.success] = 0 ∧ arxiv_main_exit_code 2 ≠ 0 :=
  ⟨cli_exit_code_spec.1 [RStatus.success],
   fun h => absurd ((cli_exit_code_spec.2 2).mp h) (by decide)⟩

/-- C6: the success rate is `successful / (successful + failed) * 100`,
is `0` when the denominator is `0`, never faults, and yields `70` for
7 successes / 3 failures and `0` for 0 / 0. -/
theorem success_rate_spec :
    (∀ s : ProcessingStats,
        s.successful_files + s.failed_files = 0 → success_rate s = some 0) ∧
    (∀ s : ProcessingStats, s.successful_files + s.failed_files ≠ 0 →
        success_rate s =
          some ((s.successful_files : ℚ) / ((s.successful_files : ℚ) + (s.failed_files : ℚ))
                  * 100)) ∧
    (∀ s : ProcessingStats, (success_rate s).isSome = true) ∧
    success_rate { successful_files := 7, failed_files := 3 } = some 70 ∧
    success_rate { successful_files := 0, failed_files := 0 } = some 0 := by
  refine ⟨?_, ?_, ?_, ?_, ?_⟩
  · intro s h
    simp [success_rate, h]
  · intro s h
    have hq : ((s.successful_files : ℚ) + (s.failed_files : ℚ)) ≠ 0 := by
      rw [← Nat.cast_add]
      exact_mod_cast h
    simp [success_rate, pyDiv, h, hq]
  · intro s
    obtain ⟨v, hv⟩ := success_rate_total s
    simp [hv]
  · norm_num [success_rate, pyDiv]
  · norm_num [success_rate]

theorem success_rate_spec_witness :
    success_rate { successful_files := 1, failed_files := 1 } = some 50 := by
  have h := success_rate_spec.2.1 { successful_files := 1, failed_files := 1 } (by decide)
  rw [h]
  norm_num

/-- C8: each pulled item yields exactly one outcome record, any exception
escaping the classify/convert block becomes a `failure` record for that
item, and the worker loop continues with the remaining items. -/
theorem worker_survives_converter_errors :
    (∀ jobs : List Job, (worker_outputs jobs).length = jobs.length) ∧
    (∀ (j : Job) (rest : List Job),
        worker_outputs (j :: rest) = worker_process_item j :: worker_outputs rest) ∧
    (∀ j : Job, j.run.raises = true →
        worker_process_item j = ⟨j.name, RStatus.failure, j.run.elapsed⟩) := by
  refine ⟨?_, ?_, ?_⟩
  · intro jobs
    simp [worker_outputs]
  · intro j rest
    rfl
  · intro j h
    simp [worker_process_item, h]

theorem worker_survives_converter_errors_witness :
    worker_process_item ⟨"x.gz", ⟨true, true, 3⟩⟩ = ⟨"x.gz", RStatus.failure, 3⟩ :=
  worker_survives_converter_errors.2.2 ⟨"x.gz", ⟨true, true, 3⟩⟩ rfl

/-- C9: the final duration list is exactly the arrival-ordered list of
success durations and positive failure durations (`durOf`); skips are
emitted with zero elapsed time for out-of-scope file types, and the success
rate does not depend on the skipped count. -/
theorem aggregator_latency_accumulation :
    (∀ (jobs : List Job) (s : ProcessingStats), process_files jobs = some s →
        s.processing_times = (worker_outputs jobs).filterMap durOf) ∧
    (∀ r : WorkResult, r.status = RStatus.success → durOf r = some r.time) ∧
    (∀ r : WorkResult, r.status = RStatus.failure →
        durOf r = if 0 < r.time then some r.time else none) ∧
    (∀ r : WorkResult, r.status = RStatus.skipped → durOf r = none) ∧
    (∀ j : Job, j.run.raises = false → get_file_type j.name ≠ FileType.tex →
        worker_process_item j = ⟨j.name, RStatus.skipped, 0⟩) ∧
    (∀ s₁ s₂ : ProcessingStats, s₁.successful_files = s₂.successful_files →
        s₁.failed_files = s₂.failed_files → success_rate s₁ = success_rate s₂) := by
  refine ⟨?_, ?_, ?_, ?_, ?_, ?_⟩
  · intro jobs s h
    have hlen : (worker_outputs jobs).length = jobs.length := by simp [worker_outputs]
    have hall : process_files jobs
        = some ((worker_outputs jobs).foldl collectStep { total_files := jobs.length }) := by
      unfold process_files collectPhase
      rw [← hlen]
      exact collectLoop_all (worker_outputs jobs) _
    rw [hall] at h
    obtain rfl : ((worker_outputs jobs).foldl collectStep { total_files := jobs.length }) = s :=
      Option.some.inj h
    rw [foldl_collect_times]
    rfl
  · intro r h
    simp [durOf, h]
  · intro r h
    simp [durOf, h]
  · intro r h
    simp [durOf, h]
  · intro j hr ht
    cases hft : get_file_type j.name with
    | pdf => simp [worker_process_item, hr, hft]
    | tex => exact absurd hft ht
    | unknown => simp [worker_process_item, hr, hft]
  · intro s₁ s₂ h1 h2
    unfold success_rate
    rw [h1, h2]

theorem aggregator_latency_accumulation_witness :
    durOf ⟨"y.gz", RStatus.failure, 0⟩ = none ∧
    worker_process_item ⟨"z.pdf", ⟨false, true, 7⟩⟩ = ⟨"z.pdf", RStatus.skipped, 0⟩ := by
  constructor
  · have h := aggregator_latency_accumulation.2.2.1 ⟨"y.gz", RStatus.failure, 0⟩ rfl
    simpa using h
  · exact aggregator_latency_accumulation.2.2.2.2.1 ⟨"z.pdf", ⟨false, true, 7⟩⟩ rfl (by decide)

/-- C10: on a run with no measured durations, the derived metrics
`average_time`, `median_time`, `max_time`, `min_time` all return `0`
without faulting, and both the CSV report and the summary are fully
defined. -/
theorem empty_run_metrics (s : ProcessingStats) (now : ℚ)
    (h : s.processing_times = []) :
    average_time s = some 0 ∧ median_time s = some 0 ∧ max_time s = some 0 ∧
    min_time s = some 0 ∧ (generate_csv_report_values s now).isSome = true ∧
    (print_summary_values s now).isSome = true := by
  obtain ⟨v, hv⟩ := success_rate_total s
  refine ⟨?_, ?_, ?_, ?_, ?_, ?_⟩
  · simp [average_time, h]
  · simp [median_time, h]
  · simp [max_time, h]
  · simp [min_time, h]
  · simp [generate_csv_report_values, average_time, median_time, max_time, min_time,
          middle_80_percent_time_range, h, hv]
  · simp [print_summary_values, h]

theorem empty_run_metrics_witness :
    average_time {} = some 0 ∧ (generate_csv_report_values {} 5).isSome = true := by
  have h := empty_run_metrics {} 5 rfl
  exact ⟨h.1, h.2.2.2.2.1⟩

/-! ### Lemmas for the quarantine manager -/

theorem pyStemChars_append_pySuffixChars (cs : List Char) :
    pyStemChars cs ++ pySuffixChars cs = cs := by
  unfold pyStemChars pySuffixChars
  cases h : lastDotIdx cs with
  | none => simp
  | some i =>
    by_cases hc : 0 < i ∧ i < cs.length - 1
    · simp [hc, List.take_append_drop]
    · simp [hc]

theorem pyStem_append_pySuffix (s : String) : pyStem s ++ pySuffix s = s := by
  apply String.ext
  show (pyStem s).data ++ (pySuffix s).data = s.data
  simpa [pyStem, pySuffix] using pyStemChars_append_pySuffixChars s.data

theorem timestampedName_ne (name : String) (ts : Nat) :
    timestampedName (pyStem name) (pySuffix name) ts ≠ name := by
  intro h
  have hs : (pyStem name).length + (pySuffix name).length = name.length := by
    have := congrArg String.length (pyStem_append_pySuffix name)
    simpa [String.length_append] using this
  have hlen := congrArg String.length h
  simp [timestampedName, String.length_append,
        show ("_" : String).length = 1 from rfl] at hlen
  omega

/-- C4 (amended): `safe_move_to_failed` disambiguates an existing same-named
quarantine target by appending a timestamp to the stem, never overwrites the
same-named file, and — provided the timestamped name itself is not already
present (the code checks existence only once) — two failing items with the
same name yield two distinct quarantined files and two `fail.log` lines. -/
theorem quarantine_disambiguation
    (dir log : List String) (name tsStr1 tsStr2 msg1 msg2 : String) (t1 t2 : Nat)
    (dir1 log1 : List String) (target1 : String)
    (dir2 log2 : List String) (target2 : String)
    (hm1 : safe_move_to_failed dir log name t1 tsStr1 msg1 = (dir1, log1, target1))
    (hm2 : safe_move_to_failed dir1 log1 name t2 tsStr2 msg2 = (dir2, log2, target2))
    (h0 : name ∉ dir) (h1 : msg1 ≠ "") (h2 : msg2 ≠ "")
    (h3 : timestampedName (pyStem name) (pySuffix name) t2 ∉ dir1) :
    target1 = name ∧
    target2 = timestampedName (pyStem name) (pySuffix name) t2 ∧
    target2 ≠ target1 ∧
    target1 ∈ dir2 ∧ target2 ∈ dir2 ∧
    moveOverwrites dir name t1 = false ∧
    moveOverwrites dir1 name t2 = false ∧
    log2 = log ++ [logLine tsStr1 name msg1, logLine tsStr2 name msg2] := by
  have ht1 : safeMoveTarget dir name t1 = name := by simp [safeMoveTarget, h0]
  rw [safe_move_to_failed, ht1] at hm1
  simp [h0, h1, Prod.ext_iff] at hm1
  obtain ⟨hd1, hl1, htg1⟩ := hm1
  have hmem : name ∈ dir1 := by rw [← hd1]; exact List.mem_cons_self name dir
  have ht2 : safeMoveTarget dir1 name t2 = timestampedName (pyStem name) (pySuffix name) t2 := by
    simp [safeMoveTarget, hmem]
  rw [safe_move_to_failed, ht2] at hm2
  simp [h3, h2, Prod.ext_iff] at hm2
  obtain ⟨hd2, hl2, htg2⟩ := hm2
  refine ⟨htg1.symm, htg2.symm, ?_, ?_, ?_, ?_, ?_, ?_⟩
  · rw [← htg1, ← htg2]
    exact timestampedName_ne name t2
  · rw [← htg1, ← hd2, ← hd1]
    exact List.mem_cons_of_mem _ (List.mem_cons_self name dir)
  · rw [← htg2, ← hd2]
    exact List.mem_cons_self _ _
  · simp [moveOverwrites, ht1, h0]
  · simp [moveOverwrites, ht2, h3]
  · rw [← hl2, ← hl1]
    simp

theorem quarantine_disambiguation_witness :
    moveOverwrites [] "a.tar" 1 = false ∧
    moveOverwrites ["a.tar"] "a.tar" 2 = false ∧
    (safe_move_to_failed ["a.tar"] ["[d1] a.tar: e1"] "a.tar" 2 "d2" "e2").2.2 = "a_2.tar" := by
  have h := quarantine_disambiguation [] [] "a.tar" "d1" "d2" "e1" "e2" 1 2
    ["a.tar"] ["[d1] a.tar: e1"] "a.tar"
    ["a_2.tar", "a.tar"] ["[d1] a.tar: e1", "[d2] a.tar: e2"] "a_2.tar"
    (by decide) (by decide) (by decide) (by decide) (by decide) (by decide)
  exact ⟨h.2.2.2.2.2.1, h.2.2.2.2.2.2.1, by decide⟩

/-- C4 counterexample: when the timestamped target name already exists in
quarantine (here `a_5.tar`, with a same-second move of a second `a.tar`),
the move lands on an existing file and overwrites it — the claim's "never
overwrites an existing file in the quarantine directory" is false. -/
theorem quarantine_can_overwrite : moveOverwrites ["a.tar", "a_5.tar"] "a.tar" 5 = true := by
  decide

/-! ### Lemmas for priority parsing and the backlog order -/

theorem takeWhile_digits_append (d : List Char) (c : Char) (r : List Char)
    (hd : ∀ x ∈ d, x.isDigit = true) (hc : c.isDigit = false) :
    (d ++ c :: r).takeWhile (fun x => x.isDigit) = d := by
  induction d with
  | nil => simp [List.takeWhile_cons, hc]
  | cons x xs ih =>
    have hx : x.isDigit = true := hd x (by simp)
    simp [List.takeWhile_cons, hx]
    exact ih (fun y hy => hd y (by simp [hy]))

theorem dropWhile_digits_append (d : List Char) (c : Char) (r : List Char)
    (hd : ∀ x ∈ d, x.isDigit = true) (hc : c.isDigit = false) :
    (d ++ c :: r).dropWhile (fun x => x.isDigit) = c :: r := by
  induction d with
  | nil => simp [List.dropWhile_cons, hc]
  | cons x xs ih =>
    have hx : x.isDigit = true := hd x (by simp)
    simp [List.dropWhile_cons, hx]
    exact ih (fun y hy => hd y (by simp [hy]))

theorem mem_insertTask (x a : String × BEntry) (l : List (String × BEntry)) :
    a ∈ insertTask x l ↔ a = x ∨ a ∈ l := by
  induction l with
  | nil => simp [insertTask]
  | cons y ys ih =>
    by_cases h : y.2.priority ≤ x.2.priority <;> simp [insertTask, h, ih] <;> tauto

theorem insertTask_perm (x : String × BEntry) (l : List (String × BEntry)) :
    List.Perm (insertTask x l) (x :: l) := by
  induction l with
  | nil => exact List.Perm.refl [x]
  | cons y ys ih =>
    by_cases h : y.2.priority ≤ x.2.priority
    · simp [insertTask, h]
    · simp only [insertTask, if_neg h]
      exact (ih.cons y).trans (List.Perm.swap x y ys)

theorem sortTasksDesc_perm (l : List (String × BEntry)) : List.Perm (sortTasksDesc l) l := by
  induction l with
  | nil => exact List.Perm.refl []
  | cons x xs ih => exact (insertTask_perm x (sortTasksDesc xs)).trans (ih.cons x)

theorem insertTask_pairwise (x : String × BEntry) (l : List (String × BEntry))
    (h : List.Pairwise (fun a b => b.2.priority ≤ a.2.priority) l) :
    List.Pairwise (fun a b => b.2.priority ≤ a.2.priority) (insertTask x l) := by
  induction l with
  | nil => simp [insertTask]
  | cons y ys ih =>
    obtain ⟨hy, hys⟩ := List.pairwise_cons.mp h
    by_cases hc : y.2.priority ≤ x.2.priority
    · simp only [insertTask, if_pos hc]
      refine List.Pairwise.cons ?_ h
      intro b hb
      rcases List.mem_cons.mp hb with rfl | hb
      · exact hc
      · exact le_trans (hy b hb) hc
    · simp only [insertTask, if_neg hc]
      refine List.Pairwise.cons ?_ (ih hys)
      intro b hb
      rcases (mem_insertTask x b ys).mp hb with rfl | hb
      · exact le_of_not_le hc
      · exact hy b hb

theorem sortTasksDesc_pairwise (l : List (String × BEntry)) :
    List.Pairwise (fun a b => b.2.priority ≤ a.2.priority) (sortTasksDesc l) := by
  induction l with
  | nil => simp [sortTasksDesc]
  | cons x xs ih => exact insertTask_pairwise x (sortTasksDesc xs) ih

theorem filter_zero_insertTask (x : String × BEntry) (l : List (String × BEntry)) :
    (insertTask x l).filter (fun e => e.2.priority == 0)
      = if x.2.priority = 0 then x :: l.filter (fun e => e.2.priority == 0)
        else l.filter (fun e => e.2.priority == 0) := by
  induction l with
  | nil => by_cases h : x.2.priority = 0 <;> simp [insertTask, h]
  | cons y ys ih =>
    by_cases hc : y.2.priority ≤ x.2.priority
    · by_cases hx : x.2.priority = 0
      · have hy0 : y.2.priority = 0 := by omega
        simp [insertTask, hc, hx, List.filter_cons, hy0]
      · simp [insertTask, hc, hx, List.filter_cons]
    · have hy0 : ¬ y.2.priority = 0 := by omega
      simp [insertTask, if_neg hc, List.filter_cons, hy0, ih]

theorem filter_zero_sortTasksDesc (l : List (String × BEntry)) :
    (sortTasksDesc l).filter (fun e => e.2.priority == 0)
      = l.filter (fun e => e.2.priority == 0) := by
  induction l with
  | nil => rfl
  | cons x xs ih =>
    by_cases h : x.2.priority = 0 <;>
      simp [sortTasksDesc, filter_zero_insertTask, h, List.filter_cons, ih]

/-- Helper: on a filename of the shape `arXiv_src_<digits>_<digits>.tar`,
the priority is the integer parse of the two concatenated digit groups. -/
theorem get_priority_pattern (d1 d2 : List Char)
    (h1 : d1 ≠ []) (h2 : d2 ≠ [])
    (hd1 : ∀ c ∈ d1, c.isDigit = true) (hd2 : ∀ c ∈ d2, c.isDigit = true) :
    get_priority_from_filename
      (String.mk ('a' :: 'r' :: 'X' :: 'i' :: 'v' :: '_' :: 's' :: 'r' :: 'c' :: '_' ::
        (d1 ++ '_' :: (d2 ++ ['.', 't', 'a', 'r']))))
      = digitsToNat (d1 ++ d2) := by
  have ht1 := takeWhile_digits_append d1 '_' (d2 ++ ['.', 't', 'a', 'r']) hd1 (by decide)
  have hr1 := dropWhile_digits_append d1 '_' (d2 ++ ['.', 't', 'a', 'r']) hd1 (by decide)
  have ht2 := takeWhile_digits_append d2 '.' ['t', 'a', 'r'] hd2 (by decide)
  have hr2 := dropWhile_digits_append d2 '.' ['t', 'a', 'r'] hd2 (by decide)
  have hnum : matchNum (d1 ++ '_' :: (d2 ++ ['.', 't', 'a', 'r'])) = some (d1, d2) := by
    simp [matchNum, ht1, hr1, h1, ht2, hr2, h2]
  have hsearch : searchSrc ('a' :: 'r' :: 'X' :: 'i' :: 'v' :: '_' :: 's' :: 'r' :: 'c' :: '_' ::
      (d1 ++ '_' :: (d2 ++ ['.', 't', 'a', 'r']))) = some (d1, d2) := by
    simp [searchSrc, matchAt, hnum]
  simp [get_priority_from_filename, hsearch]

/-- C5: the priority function concatenates the two embedded digit groups
and parses them as an integer, returns 0 when the pattern does not match,
and the backlog is sorted by descending priority with priority-0 entries
kept in discovery order; in particular the period-2203 entry is scheduled
strictly before the period-2201 entry. -/
theorem priority_scheduling :
    get_priority_from_filename "arXiv_src_2203_001.tar" = 2203001 ∧
    get_priority_from_filename "arXiv_src_2201_005.tar" = 2201005 ∧
    (∀ d1 d2 : List Char, d1 ≠ [] → d2 ≠ [] →
        (∀ c ∈ d1, c.isDigit = true) → (∀ c ∈ d2, c.isDigit = true) →
        get_priority_from_filename
          (String.mk ('a' :: 'r' :: 'X' :: 'i' :: 'v' :: '_' :: 's' :: 'r' :: 'c' :: '_' ::
            (d1 ++ '_' :: (d2 ++ ['.', 't', 'a', 'r']))))
          = digitsToNat (d1 ++ d2)) ∧
    (∀ s : String, searchSrc s.data = none → get_priority_from_filename s = 0) ∧
    (∀ l : List (String × BEntry), List.Perm (sortTasksDesc l) l) ∧
    (∀ l : List (String × BEntry),
        List.Pairwise (fun a b => b.2.priority ≤ a.2.priority) (sortTasksDesc l)) ∧
    (∀ l : List (String × BEntry),
        (sortTasksDesc l).filter (fun e => e.2.priority == 0)
          = l.filter (fun e => e.2.priority == 0)) ∧
    (pendingTasks (initialize_state []
        [("arXiv_src_2201_005.tar", "/data/a"), ("arXiv_src_2203_001.tar", "/data/b")])).map
        Prod.fst
      = ["arXiv_src_2203_001.tar", "arXiv_src_2201_005.tar"] := by
  refine ⟨by decide, by decide, get_priority_pattern, ?_, sortTasksDesc_perm,
          sortTasksDesc_pairwise, filter_zero_sortTasksDesc, by decide⟩
  intro s h
  simp [get_priority_from_filename, h]

theorem priority_scheduling_witness :
    get_priority_from_filename
      (String.mk ('a' :: 'r' :: 'X' :: 'i' :: 'v' :: '_' :: 's' :: 'r' :: 'c' :: '_' ::
        (['2', '2', '0', '8'] ++ '_' :: (['0', '7', '1'] ++ ['.', 't', 'a', 'r']))))
      = 2208071 := by
  have h := priority_scheduling.2.2.1 ['2', '2', '0', '8'] ['0', '7', '1']
    (by decide) (by decide) (by decide) (by decide)
  exact h.trans (by decide)

/-! ### Lemmas for the batch state store -/

theorem initialize_state_cons (st : BState) (f : String × String)
    (fs : List (String × String)) :
    initialize_state st (f :: fs)
      = initialize_state
          (if (st.lookup f.1).isSome then st
           else st ++ [(f.1, ⟨f.2, BStatus.pending, get_priority_from_filename f.1⟩)]) fs := rfl

theorem lookup_none_not_mem (st : BState) (k : String) (h : st.lookup k = none) :
    k ∉ st.map Prod.fst := by
  induction st with
  | nil => simp
  | cons e es ih =>
    rcases e with ⟨a, b⟩
    by_cases hk : (k == a) = true
    · simp [List.lookup, hk] at h
    · rw [Bool.not_eq_true] at hk
      simp only [List.lookup, hk] at h
      have hne : k ≠ a := by simpa using hk
      simp only [List.map_cons, List.mem_cons]
      rintro (h1 | h1)
      · exact hne h1
      · exact ih h h1

theorem initialize_state_extends (found : List (String × String)) :
    ∀ st : BState, ∃ ext, initialize_state st found = st ++ ext ∧
      ∀ e ∈ ext, e.2.status = BStatus.pending := by
  induction found with
  | nil => intro st; exact ⟨[], by simp [initialize_state], by simp⟩
  | cons f fs ih =>
    intro st
    rw [initialize_state_cons]
    by_cases hc : (st.lookup f.1).isSome = true
    · rw [if_pos hc]
      exact ih st
    · rw [if_neg hc]
      obtain ⟨ext, he, hp⟩ :=
        ih (st ++ [(f.1, ⟨f.2, BStatus.pending, get_priority_from_filename f.1⟩)])
      refine ⟨(f.1, ⟨f.2, BStatus.pending, get_priority_from_filename f.1⟩) :: ext, ?_, ?_⟩
      · rw [he, List.append_assoc]
        rfl
      · intro e hee
        rcases List.mem_cons.mp hee with rfl | hee2
        · rfl
        · exact hp e hee2

theorem initialize_state_nodup (found : List (String × String)) :
    ∀ st : BState,
      (st.map Prod.fst).Nodup → ((initialize_state st found).map Prod.fst).Nodup := by
  induction found with
  | nil => intro st h; exact h
  | cons f fs ih =>
    intro st h
    rw [initialize_state_cons]
    by_cases hc : (st.lookup f.1).isSome = true
    · rw [if_pos hc]
      exact ih st h
    · rw [if_neg hc]
      apply ih
      rw [List.map_append]
      have hn : st.lookup f.1 = none := by
        cases hlk : st.lookup f.1 with
        | none => rfl
        | some v => rw [hlk] at hc; simp at hc
      have hdisj : f.1 ∉ st.map Prod.fst := lookup_none_not_mem st f.1 hn
      refine List.Nodup.append h (by simp) ?_
      intro a ha hb
      simp at hb
      subst hb
      exact hdisj ha

theorem initialize_state_id (found : List (String × String)) :
    ∀ st : BState,
      (∀ f ∈ found, (st.lookup f.1).isSome = true) → initialize_state st found = st := by
  induction found with
  | nil => intro st _; rfl
  | cons f fs ih =>
    intro st h
    rw [initialize_state_cons]
    have hc : (st.lookup f.1).isSome = true := h f (by simp)
    rw [if_pos hc]
    exact ih st (fun g hg => h g (by simp [hg]))


theorem entryEvolves_refl (a : String × BEntry) : entryEvolves a a :=
  ⟨rfl, rfl, rfl, Or.inl rfl⟩

theorem entryEvolves_trans {a b c : String × BEntry}
    (h1 : entryEvolves a b) (h2 : entryEvolves b c) : entryEvolves a c := by
  obtain ⟨hn1, hp1, hr1, hs1⟩ := h1
  obtain ⟨hn2, hp2, hr2, hs2⟩ := h2
  refine ⟨hn2.trans hn1, hp2.trans hp1, hr2.trans hr1, ?_⟩
  rcases hs2 with h2s | ⟨hb, hc⟩
  · rcases hs1 with h1s | ⟨ha, hb1⟩
    · exact Or.inl (h2s.trans h1s)
    · exact Or.inr ⟨ha, h2s ▸ hb1⟩
  · rcases hs1 with h1s | ⟨ha, hb1⟩
    · have : a.2.status = BStatus.pending := by rw [← h1s]; exact hb
      exact Or.inr ⟨this, hc⟩
    · exfalso
      rcases hb1 with h | h <;> rw [h] at hb <;> exact BStatus.noConfusion hb

theorem forall₂_evolve_trans {a b c : BState}
    (h1 : List.Forall₂ entryEvolves a b) (h2 : List.Forall₂ entryEvolves b c) :
    List.Forall₂ entryEvolves a c := by
  induction h1 generalizing c with
  | nil => cases h2; exact List.Forall₂.nil
  | cons hab h1' ih =>
    cases h2 with
    | cons hbc h2' => exact List.Forall₂.cons (entryEvolves_trans hab hbc) (ih h2')

theorem setStatus_evolves (s : BState) (n : String) (v : BStatus)
    (hv : v = BStatus.completed ∨ v = BStatus.failed)
    (hp : ∀ e ∈ s, e.1 = n → e.2.status = BStatus.pending) :
    List.Forall₂ entryEvolves s (setStatus s n v) := by
  induction s with
  | nil => exact List.Forall₂.nil
  | cons e es ih =>
    simp only [setStatus, List.map_cons]
    refine List.Forall₂.cons ?_ ?_
    · by_cases hc : e.1 = n
      · simp only [if_pos hc]
        exact ⟨rfl, rfl, rfl, Or.inr ⟨hp e (by simp) hc, hv⟩⟩
      · simp only [if_neg hc]
        exact entryEvolves_refl e
    · exact ih (fun e2 h2 heq => hp e2 (List.mem_cons_of_mem e h2) heq)

theorem mem_setStatus {s : BState} {n : String} {v : BStatus} {e2 : String × BEntry}
    (h : e2 ∈ setStatus s n v) :
    ∃ e ∈ s, e2 = (if e.1 = n then (e.1, { e.2 with status := v }) else e) := by
  simp only [setStatus, List.mem_map] at h
  obtain ⟨e, he, heq⟩ := h
  exact ⟨e, he, heq.symm⟩

theorem foldl_setStatus_evolves (tasks : List (String × BEntry)) (f : String → BStatus)
    (hf : ∀ n, f n = BStatus.completed ∨ f n = BStatus.failed) :
    ∀ s : BState, (tasks.map Prod.fst).Nodup →
      (∀ t ∈ tasks, ∀ e ∈ s, e.1 = t.1 → e.2.status = BStatus.pending) →
      List.Forall₂ entryEvolves s
        (tasks.foldl (fun acc t => setStatus acc t.1 (f t.1)) s) := by
  induction tasks with
  | nil =>
    intro s _ _
    exact List.forall₂_same.mpr (fun a _ => entryEvolves_refl a)
  | cons t ts ih =>
    intro s hnd hp
    rw [List.foldl_cons]
    rw [List.map_cons, List.nodup_cons] at hnd
    have h1 : List.Forall₂ entryEvolves s (setStatus s t.1 (f t.1)) :=
      setStatus_evolves s t.1 (f t.1) (hf t.1) (fun e he heq => hp t (by simp) e he heq)
    have hp2 : ∀ t2 ∈ ts, ∀ e2 ∈ setStatus s t.1 (f t.1), e2.1 = t2.1 →
        e2.2.status = BStatus.pending := by
      intro t2 ht2 e2 he2 heq
      obtain ⟨e, he, rfl⟩ := mem_setStatus he2
      by_cases hc : e.1 = t.1
      · exfalso
        rw [if_pos hc] at heq
        simp at heq
        apply hnd.1
        rw [hc.symm.trans heq]
        exact List.mem_map_of_mem Prod.fst ht2
      · rw [if_neg hc] at heq ⊢
        exact hp t2 (List.mem_cons_of_mem t ht2) e he heq
    exact forall₂_evolve_trans h1 (ih (setStatus s t.1 (f t.1)) hnd.2 hp2)

theorem mem_pendingTasks {st : BState} {t : String × BEntry} (h : t ∈ pendingTasks st) :
    t ∈ st ∧ t.2.status = BStatus.pending := by
  unfold pendingTasks at h
  have hm := (sortTasksDesc_perm _).mem_iff.mp h
  rw [List.mem_filter] at hm
  exact ⟨hm.1, by simpa using hm.2⟩

theorem pendingTasks_names_nodup {st : BState} (h : (st.map Prod.fst).Nodup) :
    ((pendingTasks st).map Prod.fst).Nodup := by
  unfold pendingTasks
  have hsub : ((st.filter (fun e => e.2.status == BStatus.pending)).map Prod.fst).Nodup :=
    h.sublist ((List.filter_sublist st).map Prod.fst)
  exact (((sortTasksDesc_perm _).map Prod.fst).nodup_iff).mpr hsub

theorem nodup_keys_eq {st : BState} (h : (st.map Prod.fst).Nodup)
    {a b : String × BEntry} (ha : a ∈ st) (hb : b ∈ st) (heq : a.1 = b.1) : a = b := by
  induction st with
  | nil => cases ha
  | cons e es ih =>
    rw [List.map_cons, List.nodup_cons] at h
    rcases List.mem_cons.mp ha with rfl | ha2
    · rcases List.mem_cons.mp hb with rfl | hb2
      · rfl
      · exact absurd (heq ▸ List.mem_map_of_mem Prod.fst hb2) h.1
    · rcases List.mem_cons.mp hb with rfl | hb2
      · exact absurd (heq ▸ List.mem_map_of_mem Prod.fst ha2) h.1
      · exact ih h.2 ha2 hb2

/-- C7: a discovery scan only appends fresh `pending` entries and never
removes or alters existing entries; one orchestrator run only moves entry
statuses monotonically from `pending` to `completed` or `failed`; and when
the source is unchanged and every entry is `completed`, the backlog is empty
and the run performs zero archive conversions. -/
theorem state_store_monotonic :
    (∀ (st : BState) (found : List (String × String)),
        ∃ ext, initialize_state st found = st ++ ext ∧
          ∀ e ∈ ext, e.2.status = BStatus.pending) ∧
    (∀ (st : BState) (found : List (String × String)) (ok : String → Bool),
        (st.map Prod.fst).Nodup →
        List.Forall₂ entryEvolves (initialize_state st found) (mainRun st found ok).1) ∧
    (∀ (st : BState) (found : List (String × String)) (ok : String → Bool),
        (∀ e ∈ st, e.2.status = BStatus.completed) →
        (∀ f ∈ found, (st.lookup f.1).isSome = true) →
        pendingTasks (initialize_state st found) = [] ∧ mainRun st found ok = (st, 0)) := by
  refine ⟨fun st found => initialize_state_extends found st, ?_, ?_⟩
  · intro st found ok hnd
    have hnd1 : ((initialize_state st found).map Prod.fst).Nodup :=
      initialize_state_nodup found st hnd
    unfold mainRun
    by_cases hpt : (pendingTasks (initialize_state st found)).isEmpty
    · rw [if_pos hpt]
      exact List.forall₂_same.mpr (fun a _ => entryEvolves_refl a)
    · rw [if_neg hpt]
      refine foldl_setStatus_evolves (pendingTasks (initialize_state st found))
        (fun n => if ok n then BStatus.completed else BStatus.failed)
        (fun n => by by_cases h : ok n <;> simp [h]) _
        (pendingTasks_names_nodup hnd1) ?_
      intro t ht e he heq
      obtain ⟨htm, hts⟩ := mem_pendingTasks ht
      have : e = t := nodup_keys_eq hnd1 he htm heq
      rw [this]
      exact hts
  · intro st found ok hcomp hfound
    have hid : initialize_state st found = st := initialize_state_id found st hfound
    have hfilter : st.filter (fun e => e.2.status == BStatus.pending) = [] := by
      rw [List.filter_eq_nil_iff]
      intro e he
      simp [hcomp e he]
    have hpend : pendingTasks (initialize_state st found) = [] := by
      rw [hid]
      unfold pendingTasks
      rw [hfilter]
      rfl
    refine ⟨hpend, ?_⟩
    have hpend2 : pendingTasks st = [] := by rw [hid] at hpend; exact hpend
    unfold mainRun
    simp [hid, hpend2]

theorem state_store_monotonic_witness :
    mainRun [("x.tar", ⟨"/x", BStatus.completed, 7⟩)] [("x.tar", "/x")] (fun _ => true)
      = ([("x.tar", ⟨"/x", BStatus.completed, 7⟩)], 0) ∧
    List.Forall₂ entryEvolves
      (initialize_state [("y.tar", ⟨"/y", BStatus.pending, 3⟩)] [])
      (mainRun [("y.tar", ⟨"/y", BStatus.pending, 3⟩)] [] (fun _ => true)).1 := by
  constructor
  · exact (state_store_monotonic.2.2 [("x.tar", ⟨"/x", BStatus.completed, 7⟩)]
      [("x.tar", "/x")] (fun _ => true) (by decide) (by decide)).2
  · exact state_store_monotonic.2.1 [("y.tar", ⟨"/y", BStatus.pending, 3⟩)] []
      (fun _ => true) (by decide)
